import Mathlib

/-!
Verification of the Croner Document Manager navigation-and-search engine.

The definitions below are a shallow embedding of the repository's source:

* `DocumentItem`, `SortOption`, … mirror `src/types/document.ts`.
  The TypeScript declaration restricts `FolderItem.files` to `FileItem[]`,
  but the navigation loop in `useDocuments` walks folders recursively, so
  children are embedded as `DocumentItem`s.
* `currentDocuments`, `navigateToFolder`, `navigateBack`,
  `validateSearchInput`, `handleFilterChange` mirror the `useDocuments`
  hook.  React state is made explicit as `NavState`; each async operation
  is embedded as a pure function from state to
  (final state, whether a loading phase was entered).  The debounce effect
  that copies the committed filter into `debouncedFilter` is embedded as
  `debounceSettle`.
* `handleKeyDown` and `FocusReachable` mirror `useKeyboardNavigation`.
* JavaScript's stable `Array.prototype.sort` is embedded as a stable
  insertion sort `sortByCmp`; `localeCompare` is modelled as
  lexicographic string comparison `strCmp`; `\s` is modelled by
  `jsIsSpace`; `.length` counts characters rather than UTF-16 code units.
-/

/-- Field `FileItem.type` in `src/types/document.ts`: one of pdf, doc, csv, mov. -/
inductive FileType where
  | pdf | doc | csv | mov
deriving DecidableEq, Repr

/-- Union `DocumentItem = FileItem | FolderItem` from `src/types/document.ts`.
`file` carries `type`, `name`, `added`; `folder` carries `name`, `files`. -/
inductive DocumentItem where
  | file (ftype : FileType) (name : String) (added : String)
  | folder (name : String) (files : List DocumentItem)

/-- The shared `name` field of both variants. -/
def DocumentItem.name : DocumentItem → String
  | .file _ n _ => n
  | .folder n _ => n

/-- The `added` date of a file (`(a as FileItem).added`); folders carry no
date, the cast in the date comparator is never reached for them. -/
def DocumentItem.added : DocumentItem → String
  | .file _ _ d => d
  | .folder _ _ => ""

/-- Guard `isFolderItem` from `src/types/document.ts`: `item.type === 'folder'`. -/
def isFolderItem : DocumentItem → Bool
  | .file _ _ _ => false
  | .folder _ _ => true

/-- Field `SortOption.field`. -/
inductive SortField where
  | name | date
deriving DecidableEq, Repr

/-- Field `SortOption.direction`. -/
inductive SortDirection where
  | asc | desc
deriving DecidableEq, Repr

/-- Record `SortOption` from `src/types/document.ts`. -/
structure SortOption where
  field : SortField
  direction : SortDirection
deriving DecidableEq, Repr

/-- The React state of the `useDocuments` hook, made explicit.
`filename` is `filterOptions.filename`; the spec refers to it as both
`rawFilter` and `validatedFilter` (the hook stores a single validated
value). -/
structure NavState where
  path : List String
  sortOption : SortOption
  filename : String
  debouncedFilter : String
  searchError : String
  isLoading : Bool
deriving DecidableEq, Repr

/-- JavaScript's `\s` character class (also used by `String.prototype.trim`). -/
def jsIsSpace (c : Char) : Bool :=
  c = ' ' || c = '\t' || c = '\n' || c = '\r' || c = '\x0b' || c = '\x0c' ||
  c = '\u00A0' || c = '\u1680' || c = '\u2000' || c = '\u2001' ||
  c = '\u2002' || c = '\u2003' || c = '\u2004' || c = '\u2005' ||
  c = '\u2006' || c = '\u2007' || c = '\u2008' || c = '\u2009' ||
  c = '\u200A' || c = '\u2028' || c = '\u2029' || c = '\u202F' ||
  c = '\u205F' || c = '\u3000' || c = '\uFEFF'

/-- Model of `String.prototype.trim` on the character list. -/
def jsTrimList (l : List Char) : List Char :=
  ((l.dropWhile jsIsSpace).reverse.dropWhile jsIsSpace).reverse

/-- Model of `String.prototype.trim`. -/
def jsTrim (s : String) : String :=
  ⟨jsTrimList s.data⟩

/-- Model of `String.prototype.toLowerCase`, modelled characterwise. -/
def jsToLower (s : String) : String :=
  ⟨s.data.map Char.toLower⟩

/-- Does `hay` start with `needle`? -/
def startsWithChars : List Char → List Char → Bool
  | _, [] => true
  | [], _ :: _ => false
  | a :: as, b :: bs => a = b && startsWithChars as bs

/-- Model of `String.prototype.includes`: `needle` occurs in `hay` as a contiguous
substring. -/
def hasSubstr : List Char → List Char → Bool
  | [], needle => startsWithChars [] needle
  | a :: as, needle => startsWithChars (a :: as) needle || hasSubstr as needle

/-- Model of `hay.includes(needle)` on strings. -/
def strIncludes (hay needle : String) : Bool :=
  hasSubstr hay.data needle.data

/-- The characters rejected by the regex `[<>:"\\|?*]` in
`validateSearchInput`. -/
def invalidChars : List Char :=
  ['<', '>', ':', '"', '\\', '|', '?', '*']

/-- Model of the test `/[<>:"\\|?*]/.test(input)`. -/
def hasInvalidChar (s : String) : Bool :=
  s.data.any (fun c => invalidChars.contains c)

/-- Model of `/\s{3,}/.test(input)`: three or more consecutive whitespace characters. -/
def hasWs3 : List Char → Bool
  | a :: b :: c :: rest =>
      (jsIsSpace a && jsIsSpace b && jsIsSpace c) || hasWs3 (b :: c :: rest)
  | _ => false

/-- Lexicographic three-way comparison of character lists. -/
def strCmpL : List Char → List Char → Int
  | [], [] => 0
  | [], _ :: _ => -1
  | _ :: _, [] => 1
  | a :: as, b :: bs => if a < b then -1 else if b < a then 1 else strCmpL as bs

/-- Model of `a.localeCompare(b)`, modelled as lexicographic comparison:
negative when `a < b`, positive when `a > b`, zero when equal. -/
def strCmp (a b : String) : Int :=
  strCmpL a.data b.data

/-- The comparator passed to `Array.prototype.sort` in `currentDocuments`. -/
def sortComparator (opt : SortOption) (a b : DocumentItem) : Int :=
  match opt.field with
  | .name =>
    let c := strCmp a.name b.name
    match opt.direction with
    | .asc => c
    | .desc => -c
  | .date =>
    if isFolderItem a && isFolderItem b then 0
    else if isFolderItem a then 1
    else if isFolderItem b then -1
    else
      let c := strCmp a.added b.added
      match opt.direction with
      | .asc => c
      | .desc => -c

/-- Stable insertion step: place `x` before the first element it does not
compare strictly after. -/
def insertCmp (cmp : α → α → Int) (x : α) : List α → List α
  | [] => [x]
  | y :: ys => if cmp x y ≤ 0 then x :: y :: ys else y :: insertCmp cmp x ys

/-- Stable sort by a three-way comparator.  `Array.prototype.sort` is
required to be stable, and a stable sort's output is determined by
sortedness plus stability, so this insertion sort is a faithful model. -/
def sortByCmp (cmp : α → α → Int) : List α → List α
  | [] => []
  | x :: xs => insertCmp cmp x (sortByCmp cmp xs)

/-- Model of `[...filtered].sort(comparator)` for a given sort option. -/
def sortEntries (opt : SortOption) (l : List DocumentItem) : List DocumentItem :=
  sortByCmp (sortComparator opt) l

/-- The path-walking loop at the top of `currentDocuments`: descend from the
root through folders named by the path segments; any failure yields `[]`. -/
def resolvePath (docs : List DocumentItem) : List String → List DocumentItem
  | [] => docs
  | seg :: rest =>
    match docs.find? (fun it => isFolderItem it && it.name == seg) with
    | some (.folder _ files) => resolvePath files rest
    | _ => []

/-- The `currentDocuments` memo: resolve the path, filter by the debounced
search term (case-insensitive substring), then sort. -/
def currentDocuments (docs : List DocumentItem) (s : NavState) : List DocumentItem :=
  let cur := resolvePath docs s.path
  let filtered :=
    if s.debouncedFilter ≠ "" then
      cur.filter (fun it => strIncludes (jsToLower it.name) (jsToLower s.debouncedFilter))
    else cur
  sortEntries s.sortOption filtered

/-- Operation `navigateToFolder`: look up the name in the displayed list; when the
first match is a folder, enter the loading phase, append the segment to
the path and clear filter and error; otherwise do nothing.  The returned
`Bool` records whether a loading/latency phase was entered. -/
def navigateToFolder (docs : List DocumentItem) (folderName : String)
    (s : NavState) : NavState × Bool :=
  match (currentDocuments docs s).find? (fun it => it.name == folderName) with
  | some target =>
    if isFolderItem target then
      ({ s with path := s.path ++ [folderName], filename := "",
                searchError := "", isLoading := false }, true)
    else (s, false)
  | none => (s, false)

/-- Operation `navigateBack`: unconditionally enter the loading phase, pop the last
path segment (`slice(0, -1)` of an empty array is empty) and clear filter
and error.  The `Bool` records that a loading phase was entered. -/
def navigateBack (s : NavState) : NavState × Bool :=
  ({ s with path := s.path.dropLast, filename := "",
            searchError := "", isLoading := false }, true)

/-- The debounce effect: 300ms after the last change it copies
`filterOptions.filename` into `debouncedFilter`. -/
def debounceSettle (s : NavState) : NavState :=
  { s with debouncedFilter := s.filename }

/-- Validator `validateSearchInput`: returns the validated value together with the
`searchError` it leaves behind (the hook clears the error first, then sets
a message in the rejecting branch). -/
def validateSearchInput (input : String) : String × String :=
  if jsTrim input = "" then ("", "")
  else if input.length > 50 then ("", "Search term too long (max 50 characters)")
  else if hasInvalidChar input then ("", "Invalid characters in search term")
  else if hasWs3 input.data then ("", "Too many consecutive spaces")
  else (jsTrim input, "")

/-- Operation `handleFilterChange`: validate, always store the validator's error
state, and update `filterOptions.filename` only when the validated value
is non-empty or the raw input is the empty string. -/
def handleFilterChange (input : String) (s : NavState) : NavState :=
  let v := validateSearchInput input
  let s1 := { s with searchError := v.2 }
  if v.1 ≠ "" ∨ input = "" then { s1 with filename := v.1 } else s1

/-- The element type of the `documents` prop of `useKeyboardNavigation`:
`Array<{ name: string; type: string }>`. -/
structure KbDoc where
  name : String
  type : String
deriving DecidableEq, Repr

/-- The keys of `handleKeyDown` that the focus claims mention. -/
inductive Key where
  | arrowDown | arrowUp | homeKey | endKey | enter | backspace | escape
deriving DecidableEq, Repr

/-- The focus-index transition of `handleKeyDown` for each key.  Arrow,
Home and End moves are guarded by `documents.length > 0`; Enter,
Backspace and Escape never change the index themselves. -/
def handleKeyDown (documents : List KbDoc) (i : Int) : Key → Int
  | .arrowDown =>
      if documents.length > 0 then min (i + 1) ((documents.length : Int) - 1) else i
  | .arrowUp =>
      if documents.length > 0 then max (i - 1) 0 else i
  | .homeKey =>
      if documents.length > 0 then 0 else i
  | .endKey =>
      if documents.length > 0 then (documents.length : Int) - 1 else i
  | .enter => i
  | .backspace => i
  | .escape => i

/-- The reachable focus states of the coordinator: the index starts at
`-1`, evolves by key transitions while the documents list is fixed, and
is reset to `-1` whenever the documents list changes (the reset effect of
`useKeyboardNavigation`). -/
inductive FocusReachable : List KbDoc → Int → Prop where
  | start (docs : List KbDoc) : FocusReachable docs (-1)
  | step (docs : List KbDoc) (i : Int) (k : Key) (h : FocusReachable docs i) :
      FocusReachable docs (handleKeyDown docs i k)
  | reset (docs docs' : List KbDoc) (i : Int) (h : FocusReachable docs i) :
      FocusReachable docs' (-1)

/-- The initial state of the hook: root path, name-ascending sort, empty
filters, no error, not loading. -/
def initState : NavState :=
  { path := [], sortOption := ⟨.name, .asc⟩, filename := "",
    debouncedFilter := "", searchError := "", isLoading := false }

/-- A root state in which the user has typed and committed the filter
text abc. -/
def rootWithFilter : NavState :=
  { initState with filename := "abc", debouncedFilter := "abc" }

/-- A small concrete document tree with one folder and one file. -/
def demoDocs : List DocumentItem :=
  [.folder "Docs" [], .file .pdf "Report" "2021-06-01T00:00:00Z"]

/-- A tree in which a file and a folder share the name Team; under the
default name-ascending sort the stable sort keeps the file first. -/
def shadowDocs : List DocumentItem :=
  [.file .pdf "Team" "2020-01-01T00:00:00Z", .folder "Team" []]

/-- Two distinct files sharing the same name. -/
def dupNameA : DocumentItem := .file .pdf "Report" "2020-01-01T00:00:00Z"

/-- Second of the two distinct files sharing the same name. -/
def dupNameB : DocumentItem := .file .doc "Report" "2021-01-01T00:00:00Z"

/-- Two files with distinct names, for the amended involution witness. -/
def distinctA : DocumentItem := .file .pdf "Alpha" "2020-01-01T00:00:00Z"

/-- Second file with a distinct name. -/
def distinctB : DocumentItem := .file .doc "Beta" "2021-01-01T00:00:00Z"

/-- A 52-character filter input: 51 letters followed by an invalid
character. -/
def longBadInput : String := ⟨List.replicate 51 'a' ++ ['<']⟩

/-- A one-element document list for the keyboard coordinator. -/
def kbDemo : List KbDoc := [⟨"Report", "pdf"⟩]

/-! ### Order facts about the string comparator -/

theorem strCmpL_nil_le (c : List Char) : strCmpL [] c ≤ 0 := by
  cases c <;> simp [strCmpL]

theorem strCmpL_neg : (a b : List Char) → strCmpL b a = -strCmpL a b
  | [], [] => by simp [strCmpL]
  | [], _ :: _ => by simp [strCmpL]
  | _ :: _, [] => by simp [strCmpL]
  | a :: as, b :: bs => by
    by_cases h1 : a < b
    · have h2 : ¬ b < a := lt_asymm h1
      simp [strCmpL, h1, h2]
    · by_cases h2 : b < a
      · simp [strCmpL, h1, h2]
      · simp [strCmpL, h1, h2, strCmpL_neg as bs]

theorem strCmpL_eq_zero_iff : (a b : List Char) → (strCmpL a b = 0 ↔ a = b)
  | [], [] => by simp [strCmpL]
  | [], _ :: _ => by simp [strCmpL]
  | _ :: _, [] => by simp [strCmpL]
  | a :: as, b :: bs => by
    by_cases h1 : a < b
    · have hne : a ≠ b := ne_of_lt h1
      simp [strCmpL, h1, hne]
    · by_cases h2 : b < a
      · have hne : a ≠ b := Ne.symm (ne_of_lt h2)
        simp [strCmpL, h1, h2, hne]
      · have hab : a = b := le_antisymm (le_of_not_lt h2) (le_of_not_lt h1)
        subst hab
        simp [strCmpL, lt_irrefl, strCmpL_eq_zero_iff as bs]

theorem strCmpL_trans_nonpos :
    (a b c : List Char) → strCmpL a b ≤ 0 → strCmpL b c ≤ 0 → strCmpL a c ≤ 0
  | [], _, c, _, _ => strCmpL_nil_le c
  | _ :: _, [], _, h1, _ => by simp [strCmpL] at h1
  | _ :: _, _ :: _, [], _, h2 => by simp [strCmpL] at h2
  | a :: as, b :: bs, c :: cs, h1, h2 => by
    by_cases hab : a < b
    · by_cases hbc : b < c
      · simp [strCmpL, lt_trans hab hbc]
      · by_cases hcb : c < b
        · simp [strCmpL, hbc, hcb] at h2
        · have hbc' : b = c := le_antisymm (le_of_not_lt hcb) (le_of_not_lt hbc)
          subst hbc'
          simp [strCmpL, hab]
    · by_cases hba : b < a
      · simp [strCmpL, hab, hba] at h1
      · have hab' : a = b := le_antisymm (le_of_not_lt hba) (le_of_not_lt hab)
        subst hab'
        simp only [strCmpL, lt_irrefl, if_neg (lt_irrefl a)] at h1
        by_cases hac : a < c
        · simp [strCmpL, hac]
        · by_cases hca : c < a
          · simp [strCmpL, hac, hca] at h2
          · have hac' : a = c := le_antisymm (le_of_not_lt hca) (le_of_not_lt hac)
            subst hac'
            simp only [strCmpL, lt_irrefl, if_neg (lt_irrefl a)] at h2 ⊢
            exact strCmpL_trans_nonpos as bs cs h1 h2

theorem strCmp_neg (a b : String) : strCmp b a = -strCmp a b :=
  strCmpL_neg a.data b.data

theorem strCmp_eq_zero_iff (a b : String) : strCmp a b = 0 ↔ a = b := by
  unfold strCmp
  rw [strCmpL_eq_zero_iff]
  constructor
  · exact fun h => String.ext h
  · intro h
    rw [h]

theorem strCmp_trans_nonpos (a b c : String) :
    strCmp a b ≤ 0 → strCmp b c ≤ 0 → strCmp a c ≤ 0 :=
  strCmpL_trans_nonpos a.data b.data c.data

theorem strCmp_trans_nonneg (a b c : String)
    (h1 : 0 ≤ strCmp a b) (h2 : 0 ≤ strCmp b c) : 0 ≤ strCmp a c := by
  have n1 := strCmp_neg a b
  have n2 := strCmp_neg b c
  have n3 := strCmp_neg a c
  have := strCmp_trans_nonpos c b a (by omega) (by omega)
  omega

/-! ### Generic facts about the stable insertion sort -/

theorem insertCmp_perm (cmp : α → α → Int) (x : α) :
    (l : List α) → List.Perm (insertCmp cmp x l) (x :: l)
  | [] => List.Perm.refl _
  | y :: ys => by
    by_cases h : cmp x y ≤ 0
    · simp [insertCmp, h]
    · simp only [insertCmp, if_neg h]
      exact ((insertCmp_perm cmp x ys).cons y).trans (List.Perm.swap x y ys)

theorem sortByCmp_perm (cmp : α → α → Int) :
    (l : List α) → List.Perm (sortByCmp cmp l) l
  | [] => List.Perm.refl _
  | x :: xs =>
    (insertCmp_perm cmp x (sortByCmp cmp xs)).trans ((sortByCmp_perm cmp xs).cons x)

theorem mem_sortByCmp (cmp : α → α → Int) (l : List α) (a : α) :
    a ∈ sortByCmp cmp l ↔ a ∈ l :=
  (sortByCmp_perm cmp l).mem_iff

theorem insertCmp_pairwise (cmp : α → α → Int)
    (htot : ∀ a b, 0 < cmp a b → cmp b a ≤ 0)
    (htrans : ∀ a b c, cmp a b ≤ 0 → cmp b c ≤ 0 → cmp a c ≤ 0)
    (x : α) : (l : List α) → List.Pairwise (fun a b => cmp a b ≤ 0) l →
      List.Pairwise (fun a b => cmp a b ≤ 0) (insertCmp cmp x l)
  | [], _ => by simp [insertCmp]
  | y :: ys, hp => by
    rcases List.pairwise_cons.mp hp with ⟨hy, hys⟩
    by_cases h : cmp x y ≤ 0
    · simp only [insertCmp, if_pos h]
      refine List.pairwise_cons.mpr ⟨?_, hp⟩
      intro z hz
      rcases List.mem_cons.mp hz with rfl | hz'
      · exact h
      · exact htrans x y z h (hy z hz')
    · simp only [insertCmp, if_neg h]
      refine List.pairwise_cons.mpr ⟨?_, insertCmp_pairwise cmp htot htrans x ys hys⟩
      intro z hz
      have hz' : z ∈ x :: ys := (insertCmp_perm cmp x ys).mem_iff.mp hz
      rcases List.mem_cons.mp hz' with rfl | hz''
      · exact htot z y (not_le.mp h)
      · exact hy z hz''

theorem sortByCmp_pairwise (cmp : α → α → Int)
    (htot : ∀ a b, 0 < cmp a b → cmp b a ≤ 0)
    (htrans : ∀ a b c, cmp a b ≤ 0 → cmp b c ≤ 0 → cmp a c ≤ 0) :
    (l : List α) → List.Pairwise (fun a b => cmp a b ≤ 0) (sortByCmp cmp l)
  | [] => by simp [sortByCmp]
  | x :: xs =>
    insertCmp_pairwise cmp htot htrans x _ (sortByCmp_pairwise cmp htot htrans xs)

theorem insertCmp_append_of_gt (cmp : α → α → Int) (x : α) :
    (l₁ l₂ : List α) → (∀ y ∈ l₁, 0 < cmp x y) →
      insertCmp cmp x (l₁ ++ l₂) = l₁ ++ insertCmp cmp x l₂
  | [], _, _ => by simp
  | y :: ys, l₂, h => by
    have hy : 0 < cmp x y := h y (List.mem_cons_self y ys)
    simp only [List.cons_append, insertCmp, if_neg (not_le.mpr hy), List.append_eq]
    rw [insertCmp_append_of_gt cmp x ys l₂ (fun z hz => h z (List.mem_cons_of_mem y hz))]

theorem insertCmp_append_of_le (cmp : α → α → Int) (x : α) :
    (l₁ l₂ : List α) → (∀ y ∈ l₂, cmp x y ≤ 0) →
      insertCmp cmp x (l₁ ++ l₂) = insertCmp cmp x l₁ ++ l₂
  | [], l₂, h => by
    cases l₂ with
    | nil => simp
    | cons z zs =>
      simp only [List.nil_append, insertCmp, if_pos (h z (List.mem_cons_self z zs))]
      rfl
  | y :: ys, l₂, h => by
    by_cases hxy : cmp x y ≤ 0
    · simp [insertCmp, hxy]
    · simp only [List.cons_append, insertCmp, if_neg hxy, List.append_eq]
      rw [insertCmp_append_of_le cmp x ys l₂ h]

theorem eq_of_perm_pairwise {α : Type} {r : α → α → Prop} :
    (l₁ l₂ : List α) → List.Perm l₁ l₂ → List.Pairwise r l₁ → List.Pairwise r l₂ →
      (∀ a b, a ∈ l₁ → b ∈ l₁ → r a b → r b a → a = b) → l₁ = l₂
  | [], _, hp, _, _, _ => hp.nil_eq
  | x :: xs, l₂, hp, h1, h2, hanti => by
    have hx : x ∈ l₂ := hp.mem_iff.mp (List.mem_cons_self x xs)
    cases l₂ with
    | nil => exact absurd hx (List.not_mem_nil x)
    | cons y ys =>
      by_cases hxy : x = y
      · subst hxy
        have hxs : List.Perm xs ys := hp.cons_inv
        have htail : xs = ys :=
          eq_of_perm_pairwise xs ys hxs (List.pairwise_cons.mp h1).2
            (List.pairwise_cons.mp h2).2
            (fun a b ha hb =>
              hanti a b (List.mem_cons_of_mem x ha) (List.mem_cons_of_mem x hb))
        rw [htail]
      · have hx' : x ∈ ys := by
          rcases List.mem_cons.mp hx with h | h
          · exact absurd h hxy
          · exact h
        have hy : y ∈ x :: xs := hp.mem_iff.mpr (List.mem_cons_self y ys)
        have hy' : y ∈ xs := by
          rcases List.mem_cons.mp hy with h | h
          · exact absurd h.symm hxy
          · exact h
        have rxy : r x y := (List.pairwise_cons.mp h1).1 y hy'
        have ryx : r y x := (List.pairwise_cons.mp h2).1 x hx'
        exact absurd
          (hanti x y (List.mem_cons_self x xs) (List.mem_cons_of_mem x hy') rxy ryx) hxy

theorem pairwise_name_ne_unique :
    (l : List DocumentItem) → List.Pairwise (fun a b => a.name ≠ b.name) l →
      ∀ a ∈ l, ∀ b ∈ l, a.name = b.name → a = b
  | [], _, a, ha, _, _, _ => absurd ha (List.not_mem_nil a)
  | x :: xs, hp, a, ha, b, hb, hab => by
    rcases List.pairwise_cons.mp hp with ⟨hx, hxs⟩
    rcases List.mem_cons.mp ha with rfl | ha'
    · rcases List.mem_cons.mp hb with rfl | hb'
      · rfl
      · exact absurd hab (hx b hb')
    · rcases List.mem_cons.mp hb with rfl | hb'
      · exact absurd hab.symm (hx a ha')
      · exact pairwise_name_ne_unique xs hxs a ha' b hb' hab

/-! ### Facts about the name and date comparators -/

theorem nameCmp_tot (dir : SortDirection) (a b : DocumentItem)
    (h : 0 < sortComparator ⟨.name, dir⟩ a b) : sortComparator ⟨.name, dir⟩ b a ≤ 0 := by
  have hn := strCmp_neg a.name b.name
  cases dir <;> simp only [sortComparator] at h ⊢ <;> omega

theorem nameCmp_trans (dir : SortDirection) (a b c : DocumentItem)
    (h1 : sortComparator ⟨.name, dir⟩ a b ≤ 0)
    (h2 : sortComparator ⟨.name, dir⟩ b c ≤ 0) :
    sortComparator ⟨.name, dir⟩ a c ≤ 0 := by
  have n1 := strCmp_neg a.name b.name
  have n2 := strCmp_neg b.name c.name
  have n3 := strCmp_neg a.name c.name
  cases dir
  · simp only [sortComparator] at h1 h2 ⊢
    exact strCmp_trans_nonpos _ _ _ h1 h2
  · simp only [sortComparator] at h1 h2 ⊢
    have h3 := strCmp_trans_nonpos c.name b.name a.name (by omega) (by omega)
    omega

theorem dateCmp_folder_folder (dir : SortDirection) (a b : DocumentItem)
    (ha : isFolderItem a = true) (hb : isFolderItem b = true) :
    sortComparator ⟨.date, dir⟩ a b = 0 := by
  simp [sortComparator, ha, hb]

theorem dateCmp_folder_file (dir : SortDirection) (a b : DocumentItem)
    (ha : isFolderItem a = true) (hb : isFolderItem b = false) :
    sortComparator ⟨.date, dir⟩ a b = 1 := by
  simp [sortComparator, ha, hb]

theorem dateCmp_file_folder (dir : SortDirection) (a b : DocumentItem)
    (ha : isFolderItem a = false) (hb : isFolderItem b = true) :
    sortComparator ⟨.date, dir⟩ a b = -1 := by
  simp [sortComparator, ha, hb]

theorem dateCmp_file_file_asc (a b : DocumentItem)
    (ha : isFolderItem a = false) (hb : isFolderItem b = false) :
    sortComparator ⟨.date, .asc⟩ a b = strCmp a.added b.added := by
  simp [sortComparator, ha, hb]

theorem dateCmp_file_file_desc (a b : DocumentItem)
    (ha : isFolderItem a = false) (hb : isFolderItem b = false) :
    sortComparator ⟨.date, .desc⟩ a b = -strCmp a.added b.added := by
  simp [sortComparator, ha, hb]

theorem dateCmp_tot (dir : SortDirection) (a b : DocumentItem)
    (h : 0 < sortComparator ⟨.date, dir⟩ a b) : sortComparator ⟨.date, dir⟩ b a ≤ 0 := by
  have hn := strCmp_neg a.added b.added
  cases hfa : isFolderItem a <;> cases hfb : isFolderItem b
  · cases dir
    · rw [dateCmp_file_file_asc a b hfa hfb] at h
      rw [dateCmp_file_file_asc b a hfb hfa]
      omega
    · rw [dateCmp_file_file_desc a b hfa hfb] at h
      rw [dateCmp_file_file_desc b a hfb hfa]
      omega
  · rw [dateCmp_file_folder dir a b hfa hfb] at h
    omega
  · rw [dateCmp_file_folder dir b a hfb hfa]
    omega
  · rw [dateCmp_folder_folder dir b a hfb hfa]

theorem dateCmp_trans (dir : SortDirection) (a b c : DocumentItem)
    (h1 : sortComparator ⟨.date, dir⟩ a b ≤ 0)
    (h2 : sortComparator ⟨.date, dir⟩ b c ≤ 0) :
    sortComparator ⟨.date, dir⟩ a c ≤ 0 := by
  have n1 := strCmp_neg a.added b.added
  have n2 := strCmp_neg b.added c.added
  have n3 := strCmp_neg a.added c.added
  cases hfa : isFolderItem a <;> cases hfb : isFolderItem b <;> cases hfc : isFolderItem c
  · cases dir
    · rw [dateCmp_file_file_asc a b hfa hfb] at h1
      rw [dateCmp_file_file_asc b c hfb hfc] at h2
      rw [dateCmp_file_file_asc a c hfa hfc]
      exact strCmp_trans_nonpos _ _ _ h1 h2
    · rw [dateCmp_file_file_desc a b hfa hfb] at h1
      rw [dateCmp_file_file_desc b c hfb hfc] at h2
      rw [dateCmp_file_file_desc a c hfa hfc]
      have h3 := strCmp_trans_nonpos c.added b.added a.added (by omega) (by omega)
      omega
  · rw [dateCmp_file_folder dir a c hfa hfc]
    omega
  · rw [dateCmp_folder_file dir b c hfb hfc] at h2
    omega
  · rw [dateCmp_file_folder dir a c hfa hfc]
    omega
  · rw [dateCmp_folder_file dir a b hfa hfb] at h1
    omega
  · rw [dateCmp_folder_file dir a b hfa hfb] at h1
    omega
  · rw [dateCmp_folder_file dir b c hfb hfc] at h2
    omega
  · rw [dateCmp_folder_folder dir a c hfa hfc]

/-! ### Decomposition of the date sort into files-then-folders -/

theorem sortEntries_date_filter_decomp (dir : SortDirection) :
    (l : List DocumentItem) →
      sortEntries ⟨.date, dir⟩ l =
        sortEntries ⟨.date, dir⟩ (l.filter (fun it => !(isFolderItem it)))
          ++ l.filter (fun it => isFolderItem it)
  | [] => by simp [sortEntries, sortByCmp]
  | x :: xs => by
    have ih := sortEntries_date_filter_decomp dir xs
    by_cases hx : isFolderItem x = true
    · have hstep :
          insertCmp (sortComparator ⟨.date, dir⟩) x
              (sortEntries ⟨.date, dir⟩ (xs.filter (fun it => !(isFolderItem it)))
                ++ xs.filter (fun it => isFolderItem it)) =
            sortEntries ⟨.date, dir⟩ (xs.filter (fun it => !(isFolderItem it)))
              ++ (x :: xs.filter (fun it => isFolderItem it)) := by
        rw [insertCmp_append_of_gt]
        · congr 1
          cases hG : xs.filter (fun it => isFolderItem it) with
          | nil => simp [insertCmp]
          | cons g gs =>
            have hg : isFolderItem g = true := by
              have : g ∈ xs.filter (fun it => isFolderItem it) := by
                rw [hG]
                exact List.mem_cons_self g gs
              exact List.of_mem_filter this
            simp only [insertCmp, dateCmp_folder_folder dir x g hx hg, if_pos (le_refl (0 : Int))]
        · intro y hy
          have hy' : y ∈ xs.filter (fun it => !(isFolderItem it)) :=
            (mem_sortByCmp _ _ y).mp hy
          have hyf : isFolderItem y = false := by
            have := List.of_mem_filter hy'
            simpa using this
          rw [dateCmp_folder_file dir x y hx hyf]
          omega
      calc sortEntries ⟨.date, dir⟩ (x :: xs)
          = insertCmp (sortComparator ⟨.date, dir⟩) x (sortEntries ⟨.date, dir⟩ xs) := rfl
        _ = _ := by
            rw [ih, hstep]
            have hfx : (x :: xs).filter (fun it => !(isFolderItem it))
                = xs.filter (fun it => !(isFolderItem it)) := by
              simp [List.filter_cons, hx]
            have hgx : (x :: xs).filter (fun it => isFolderItem it)
                = x :: xs.filter (fun it => isFolderItem it) := by
              simp [List.filter_cons, hx]
            rw [hfx, hgx]
    · have hx' : isFolderItem x = false := by
        cases hfx : isFolderItem x
        · rfl
        · exact absurd hfx hx
      have hstep :
          insertCmp (sortComparator ⟨.date, dir⟩) x
              (sortEntries ⟨.date, dir⟩ (xs.filter (fun it => !(isFolderItem it)))
                ++ xs.filter (fun it => isFolderItem it)) =
            insertCmp (sortComparator ⟨.date, dir⟩) x
                (sortEntries ⟨.date, dir⟩ (xs.filter (fun it => !(isFolderItem it))))
              ++ xs.filter (fun it => isFolderItem it) := by
        rw [insertCmp_append_of_le]
        intro g hg
        have hgf : isFolderItem g = true := List.of_mem_filter hg
        rw [dateCmp_file_folder dir x g hx' hgf]
        omega
      calc sortEntries ⟨.date, dir⟩ (x :: xs)
          = insertCmp (sortComparator ⟨.date, dir⟩) x (sortEntries ⟨.date, dir⟩ xs) := rfl
        _ = _ := by
            rw [ih, hstep]
            have hfx : (x :: xs).filter (fun it => !(isFolderItem it))
                = x :: xs.filter (fun it => !(isFolderItem it)) := by
              simp [List.filter_cons, hx']
            have hgx : (x :: xs).filter (fun it => isFolderItem it)
                = xs.filter (fun it => isFolderItem it) := by
              simp [List.filter_cons, hx']
            rw [hfx, hgx]
            rfl

/-! ### Facts about trimming and validation -/

theorem jsTrimList_eq_nil_iff (l : List Char) :
    jsTrimList l = [] ↔ ∀ c ∈ l, jsIsSpace c = true := by
  unfold jsTrimList
  rw [List.reverse_eq_nil_iff, List.dropWhile_eq_nil_iff]
  constructor
  · intro h c hc
    rw [← List.takeWhile_append_dropWhile jsIsSpace l] at hc
    rcases List.mem_append.mp hc with h1 | h2
    · exact List.mem_takeWhile_imp h1
    · exact h c (List.mem_reverse.mpr h2)
  · intro h c hc
    have hc' : c ∈ l.dropWhile jsIsSpace := List.mem_reverse.mp hc
    have : c ∈ l := by
      rw [← List.takeWhile_append_dropWhile jsIsSpace l]
      exact List.mem_append.mpr (Or.inr hc')
    exact h c this

theorem jsTrim_eq_empty_iff (s : String) :
    jsTrim s = "" ↔ ∀ c ∈ s.data, jsIsSpace c = true := by
  rw [show ("" : String) = ⟨[]⟩ from rfl]
  unfold jsTrim
  rw [String.ext_iff]
  exact jsTrimList_eq_nil_iff s.data

theorem jsTrim_ne_empty_of_invalid (s : String) (h : hasInvalidChar s = true) :
    jsTrim s ≠ "" := by
  intro hempty
  rcases List.any_eq_true.mp h with ⟨c, hc, hcin⟩
  have hc' : c ∈ invalidChars := by simpa using hcin
  have hspace := (jsTrim_eq_empty_iff s).mp hempty c hc
  have hnot : ∀ d ∈ invalidChars, jsIsSpace d = false := by decide
  rw [hnot c hc'] at hspace
  exact Bool.false_ne_true hspace

/-! ### A helper about find? over a prefix with no matches -/

theorem find?_append_of_none (p : α → Bool) :
    (l₁ l₂ : List α) → (∀ x ∈ l₁, p x = false) →
      List.find? p (l₁ ++ l₂) = List.find? p l₂
  | [], _, _ => rfl
  | y :: ys, l₂, h => by
    have hy : p y = false := h y (List.mem_cons_self y ys)
    rw [List.cons_append, List.find?_cons_of_neg _ (by simp [hy])]
    exact find?_append_of_none p ys l₂ (fun z hz => h z (List.mem_cons_of_mem y hz))

/-! ### The focus-index invariant of the keyboard coordinator -/

theorem focusReachable_bounds (docs : List KbDoc) (i : Int)
    (h : FocusReachable docs i) :
    -1 ≤ i ∧ (docs ≠ [] → i < (docs.length : Int)) := by
  induction h with
  | start docs =>
    refine ⟨by omega, ?_⟩
    intro hne
    have := List.length_pos.mpr hne
    omega
  | step docs i k h ih =>
    rcases ih with ⟨ih1, ih2⟩
    have hlp : docs ≠ [] → 0 < docs.length := fun hne => List.length_pos.mpr hne
    cases k with
    | arrowDown =>
      by_cases hlen : docs.length > 0
      · have hne : docs ≠ [] := List.length_pos.mp hlen
        have h2 := ih2 hne
        simp only [handleKeyDown, if_pos hlen]
        exact ⟨by omega, fun _ => by omega⟩
      · simp only [handleKeyDown, if_neg hlen]
        exact ⟨ih1, ih2⟩
    | arrowUp =>
      by_cases hlen : docs.length > 0
      · have hne : docs ≠ [] := List.length_pos.mp hlen
        have h2 := ih2 hne
        simp only [handleKeyDown, if_pos hlen]
        exact ⟨by omega, fun _ => by omega⟩
      · simp only [handleKeyDown, if_neg hlen]
        exact ⟨ih1, ih2⟩
    | homeKey =>
      by_cases hlen : docs.length > 0
      · simp only [handleKeyDown, if_pos hlen]
        exact ⟨by omega, fun _ => by omega⟩
      · simp only [handleKeyDown, if_neg hlen]
        exact ⟨ih1, ih2⟩
    | endKey =>
      by_cases hlen : docs.length > 0
      · simp only [handleKeyDown, if_pos hlen]
        exact ⟨by omega, fun _ => by omega⟩
      · simp only [handleKeyDown, if_neg hlen]
        exact ⟨ih1, ih2⟩
    | enter => exact ⟨ih1, ih2⟩
    | backspace => exact ⟨ih1, ih2⟩
    | escape => exact ⟨ih1, ih2⟩
  | reset docs docs' i h ih =>
    refine ⟨by omega, ?_⟩
    intro hne
    have := List.length_pos.mpr hne
    omega

/-! ### Claim theorems -/

/-- C1: for every reachable sequence of keyboard transitions (ArrowDown,
ArrowUp, Home, End, Enter, Backspace, Escape), assuming the focus index
is reset to -1 whenever the documents list changes, the index satisfies
-1 at least and stays below the length whenever the list is non-empty;
ArrowDown from -1 yields 0, ArrowUp never drops the index below 0, and
Home and End go to 0 and length-1 exactly on non-empty lists. -/
theorem C1_focus_index_invariant (docs : List KbDoc) (i : Int)
    (h : FocusReachable docs i) :
    (-1 ≤ i ∧ (docs ≠ [] → i < (docs.length : Int))) ∧
    (docs ≠ [] → handleKeyDown docs (-1) .arrowDown = 0) ∧
    (0 ≤ i → 0 ≤ handleKeyDown docs i .arrowUp) ∧
    (docs = [] → handleKeyDown docs i .homeKey = i ∧ handleKeyDown docs i .endKey = i) ∧
    (docs ≠ [] → handleKeyDown docs i .homeKey = 0 ∧
      handleKeyDown docs i .endKey = (docs.length : Int) - 1) := by
  refine ⟨focusReachable_bounds docs i h, ?_, ?_, ?_, ?_⟩
  · intro hne
    have hlen : docs.length > 0 := List.length_pos.mpr hne
    simp only [handleKeyDown, if_pos hlen]
    omega
  · intro hi
    by_cases hlen : docs.length > 0
    · simp only [handleKeyDown, if_pos hlen]
      omega
    · simp only [handleKeyDown, if_neg hlen]
      omega
  · intro hnil
    subst hnil
    simp [handleKeyDown]
  · intro hne
    have hlen : docs.length > 0 := List.length_pos.mpr hne
    simp only [handleKeyDown, if_pos hlen]
    exact ⟨trivial, trivial⟩

/-- Witness for C1: the invariant instantiated at a one-element list and
the initial index, with every inner implication discharged. -/
theorem C1_focus_index_invariant_witness :
    ((-1 : Int) ≤ -1 ∧ (-1 : Int) < (kbDemo.length : Int)) ∧
    handleKeyDown kbDemo (-1) .arrowDown = 0 ∧
    handleKeyDown kbDemo (-1) .homeKey = 0 ∧
    handleKeyDown kbDemo (-1) .endKey = (kbDemo.length : Int) - 1 := by
  have h := C1_focus_index_invariant kbDemo (-1) (FocusReachable.start kbDemo)
  exact ⟨⟨h.1.1, h.1.2 (by decide)⟩, h.2.1 (by decide),
    (h.2.2.2.2 (by decide)).1, (h.2.2.2.2 (by decide)).2⟩

/-- C2: after a successful navigateInto (the displayed view resolves the
name to a folder, so the loading flag of the pair is true) and after any
navigateBack, once the debounce effect has fired the stored filter (the
hook's single field playing the role of rawFilter and validatedFilter),
the debounced filter and the search error are all empty. -/
theorem C2_navigation_clears_search (docs : List DocumentItem) (nm : String)
    (s : NavState) :
    ((navigateToFolder docs nm s).2 = true →
      (debounceSettle (navigateToFolder docs nm s).1).filename = "" ∧
      (debounceSettle (navigateToFolder docs nm s).1).debouncedFilter = "" ∧
      (debounceSettle (navigateToFolder docs nm s).1).searchError = "") ∧
    ((debounceSettle (navigateBack s).1).filename = "" ∧
     (debounceSettle (navigateBack s).1).debouncedFilter = "" ∧
     (debounceSettle (navigateBack s).1).searchError = "") := by
  constructor
  · intro hs
    have hres : navigateToFolder docs nm s =
        ({ s with path := s.path ++ [nm], filename := "", searchError := "",
                  isLoading := false }, true) := by
      unfold navigateToFolder at hs ⊢
      cases hfind : (currentDocuments docs s).find? (fun it => it.name == nm) with
      | none =>
        rw [hfind] at hs
        simp at hs
      | some target =>
        rw [hfind] at hs
        by_cases ht : isFolderItem target
        · simp [ht]
        · simp [ht] at hs
    rw [hres]
    exact ⟨rfl, rfl, rfl⟩
  · exact ⟨rfl, rfl, rfl⟩

/-- Witness for C2: navigating into the folder Docs from the initial root
state succeeds and settles with all search state empty. -/
theorem C2_navigation_clears_search_witness :
    (debounceSettle (navigateToFolder demoDocs "Docs" initState).1).filename = "" ∧
    (debounceSettle (navigateToFolder demoDocs "Docs" initState).1).debouncedFilter = "" ∧
    (debounceSettle (navigateToFolder demoDocs "Docs" initState).1).searchError = "" :=
  (C2_navigation_clears_search demoDocs "Docs" initState).1 (by decide)

/-- Counterexample to C3: at the root (empty path) with a committed filter
abc, navigateBack is not a no-op — it clears the stored filter — and a
loading phase is entered. -/
theorem C3_navigateBack_empty_counterexample :
    ¬ ((navigateBack rootWithFilter).1 = rootWithFilter ∧
       (navigateBack rootWithFilter).2 = false) := by
  decide

/-- C3 amended: when the path is empty, navigateBack leaves the path
empty and the sort option and debounced filter untouched, but it still
enters the loading/latency phase and resets the stored filter and the
search error to empty, with isLoading false once the call completes; the
code has no empty-path guard. -/
theorem C3_navigateBack_empty_amended (s : NavState) (h : s.path = []) :
    (navigateBack s).1.path = [] ∧
    (navigateBack s).1.sortOption = s.sortOption ∧
    (navigateBack s).1.debouncedFilter = s.debouncedFilter ∧
    (navigateBack s).1.filename = "" ∧
    (navigateBack s).1.searchError = "" ∧
    (navigateBack s).1.isLoading = false ∧
    (navigateBack s).2 = true := by
  refine ⟨?_, rfl, rfl, rfl, rfl, rfl, rfl⟩
  simp [navigateBack, h]

/-- Witness for the amended C3 at the concrete root state carrying a
filter. -/
theorem C3_navigateBack_empty_amended_witness :
    (navigateBack rootWithFilter).1.path = [] ∧
    (navigateBack rootWithFilter).1.sortOption = rootWithFilter.sortOption ∧
    (navigateBack rootWithFilter).1.debouncedFilter = rootWithFilter.debouncedFilter ∧
    (navigateBack rootWithFilter).1.filename = "" ∧
    (navigateBack rootWithFilter).1.searchError = "" ∧
    (navigateBack rootWithFilter).1.isLoading = false ∧
    (navigateBack rootWithFilter).2 = true :=
  C3_navigateBack_empty_amended rootWithFilter rfl

/-- Counterexample to C4: two distinct files share the name Report; the
stable sort returns them in input order for both directions, so the
descending result is not the reverse of the ascending one. -/
theorem C4_name_sort_involution_counterexample :
    ¬ (sortEntries ⟨.name, .asc⟩ [dupNameA, dupNameB] =
        (sortEntries ⟨.name, .desc⟩ [dupNameA, dupNameB]).reverse) := by
  intro h
  rw [show sortEntries ⟨.name, .asc⟩ [dupNameA, dupNameB] = [dupNameA, dupNameB] from rfl,
      show sortEntries ⟨.name, .desc⟩ [dupNameA, dupNameB] = [dupNameA, dupNameB] from rfl] at h
  simp [dupNameA, dupNameB] at h

/-- C4 amended: for input lists whose entries carry pairwise distinct
names, sorting by name ascending and by name descending yield exact
reverses of each other. -/
theorem C4_name_sort_involution (l : List DocumentItem)
    (h : l.Pairwise (fun a b => a.name ≠ b.name)) :
    sortEntries ⟨.name, .asc⟩ l = (sortEntries ⟨.name, .desc⟩ l).reverse := by
  have hA : (sortEntries ⟨.name, .asc⟩ l).Pairwise
      (fun a b => sortComparator ⟨.name, .asc⟩ a b ≤ 0) :=
    sortByCmp_pairwise _ (nameCmp_tot .asc) (nameCmp_trans .asc) l
  have hD : (sortEntries ⟨.name, .desc⟩ l).Pairwise
      (fun a b => sortComparator ⟨.name, .desc⟩ a b ≤ 0) :=
    sortByCmp_pairwise _ (nameCmp_tot .desc) (nameCmp_trans .desc) l
  have hpermA : List.Perm (sortEntries ⟨.name, .asc⟩ l) l := sortByCmp_perm _ l
  have hpermD : List.Perm (sortEntries ⟨.name, .desc⟩ l) l := sortByCmp_perm _ l
  have hDrev : (sortEntries ⟨.name, .desc⟩ l).reverse.Pairwise
      (fun a b => sortComparator ⟨.name, .asc⟩ a b ≤ 0) := by
    rw [List.pairwise_reverse]
    refine hD.imp ?_
    intro a b hab
    have hn := strCmp_neg a.name b.name
    simp only [sortComparator] at hab ⊢
    omega
  have hperm : List.Perm (sortEntries ⟨.name, .asc⟩ l)
      ((sortEntries ⟨.name, .desc⟩ l).reverse) :=
    hpermA.trans ((List.reverse_perm (sortEntries ⟨.name, .desc⟩ l)).trans hpermD).symm
  refine eq_of_perm_pairwise _ _ hperm hA hDrev ?_
  intro a b ha hb hab hba
  have hmema : a ∈ l := hpermA.mem_iff.mp ha
  have hmemb : b ∈ l := hpermA.mem_iff.mp hb
  have hn := strCmp_neg a.name b.name
  simp only [sortComparator] at hab hba
  have hz : strCmp a.name b.name = 0 := by omega
  exact pairwise_name_ne_unique l h a hmema b hmemb ((strCmp_eq_zero_iff _ _).mp hz)

/-- Witness for the amended C4 at two files with distinct names. -/
theorem C4_name_sort_involution_witness :
    ([distinctA, distinctB] : List DocumentItem).Pairwise (fun a b => a.name ≠ b.name) ∧
    sortEntries ⟨.name, .asc⟩ [distinctA, distinctB] =
      (sortEntries ⟨.name, .desc⟩ [distinctA, distinctB]).reverse :=
  ⟨by simp [distinctA, distinctB, DocumentItem.name],
   C4_name_sort_involution [distinctA, distinctB]
     (by simp [distinctA, distinctB, DocumentItem.name])⟩

/-- C5: under the date sort, for every list and both directions, every
folder appears after every file, the folders keep their relative input
order (two folders compare equal and the sort is stable), and the files
are ordered by the lexicographic comparison of their ISO date strings,
with the descending direction reversing only that file-file comparison. -/
theorem C5_date_sort_shape (dir : SortDirection) (l : List DocumentItem) :
    (sortEntries ⟨.date, dir⟩ l).Pairwise
        (fun a b => isFolderItem a = true → isFolderItem b = true) ∧
    (sortEntries ⟨.date, dir⟩ l).filter (fun it => isFolderItem it) =
        l.filter (fun it => isFolderItem it) ∧
    ((sortEntries ⟨.date, dir⟩ l).filter (fun it => !(isFolderItem it))).Pairwise
        (fun a b =>
          match dir with
          | .asc => strCmp a.added b.added ≤ 0
          | .desc => strCmp b.added a.added ≤ 0) := by
  have hdecomp := sortEntries_date_filter_decomp dir l
  have hSFfiles : ∀ y ∈ sortEntries ⟨.date, dir⟩ (l.filter (fun it => !(isFolderItem it))),
      isFolderItem y = false := by
    intro y hy
    have := List.of_mem_filter ((mem_sortByCmp _ _ y).mp hy)
    simpa using this
  have hGfold : ∀ y ∈ l.filter (fun it => isFolderItem it), isFolderItem y = true :=
    fun y hy => List.of_mem_filter hy
  refine ⟨?_, ?_, ?_⟩
  · rw [hdecomp, List.pairwise_append]
    refine ⟨?_, ?_, ?_⟩
    · exact List.pairwise_of_forall_mem_list
        (fun {a} ha {b} _ hfa => absurd ((hSFfiles a ha).symm.trans hfa) Bool.false_ne_true)
    · exact List.pairwise_of_forall_mem_list (fun {a} _ {b} hb _ => hGfold b hb)
    · exact fun a _ b hb _ => hGfold b hb
  · rw [hdecomp, List.filter_append]
    have h1 : (sortEntries ⟨.date, dir⟩ (l.filter (fun it => !(isFolderItem it)))).filter
        (fun it => isFolderItem it) = [] :=
      List.filter_eq_nil_iff.mpr (fun a ha => by simp [hSFfiles a ha])
    have h2 : (l.filter (fun it => isFolderItem it)).filter (fun it => isFolderItem it) =
        l.filter (fun it => isFolderItem it) :=
      List.filter_eq_self.mpr hGfold
    rw [h1, h2, List.nil_append]
  · rw [hdecomp, List.filter_append]
    have h1 : (sortEntries ⟨.date, dir⟩ (l.filter (fun it => !(isFolderItem it)))).filter
        (fun it => !(isFolderItem it)) =
        sortEntries ⟨.date, dir⟩ (l.filter (fun it => !(isFolderItem it))) :=
      List.filter_eq_self.mpr (fun a ha => by simp [hSFfiles a ha])
    have h2 : (l.filter (fun it => isFolderItem it)).filter (fun it => !(isFolderItem it)) = [] :=
      List.filter_eq_nil_iff.mpr (fun a ha => by simp [hGfold a ha])
    rw [h1, h2, List.append_nil]
    have hsorted : (sortEntries ⟨.date, dir⟩ (l.filter (fun it => !(isFolderItem it)))).Pairwise
        (fun a b => sortComparator ⟨.date, dir⟩ a b ≤ 0) :=
      sortByCmp_pairwise _ (dateCmp_tot dir) (dateCmp_trans dir) _
    refine hsorted.imp_of_mem ?_
    intro a b ha hb hab
    have hfa := hSFfiles a ha
    have hfb := hSFfiles b hb
    cases dir
    · rw [dateCmp_file_file_asc a b hfa hfb] at hab
      exact hab
    · rw [dateCmp_file_file_desc a b hfa hfb] at hab
      have hn := strCmp_neg a.added b.added
      show strCmp b.added a.added ≤ 0
      omega

/-- C6: validateSearchInput applies its rules with first-match-wins
precedence: trimmed-empty wins over everything, then the length bound,
then invalid characters, then consecutive whitespace, otherwise the
trimmed input is stored; an over-long input containing an invalid
character gets the length message, and every rejected input leaves the
stored filter unchanged. -/
theorem C6_validate_precedence (input : String) (s : NavState) :
    (jsTrim input = "" → validateSearchInput input = ("", "")) ∧
    (jsTrim input ≠ "" → input.length > 50 →
      validateSearchInput input = ("", "Search term too long (max 50 characters)")) ∧
    (input.length > 50 → hasInvalidChar input = true →
      validateSearchInput input = ("", "Search term too long (max 50 characters)")) ∧
    (input.length ≤ 50 → hasInvalidChar input = true →
      validateSearchInput input = ("", "Invalid characters in search term")) ∧
    (input.length ≤ 50 → hasInvalidChar input = false → hasWs3 input.data = true →
      jsTrim input ≠ "" →
      validateSearchInput input = ("", "Too many consecutive spaces")) ∧
    (jsTrim input ≠ "" → input.length ≤ 50 → hasInvalidChar input = false →
      hasWs3 input.data = false → validateSearchInput input = (jsTrim input, "")) ∧
    ((validateSearchInput input).2 ≠ "" →
      (handleFilterChange input s).filename = s.filename) := by
  refine ⟨?_, ?_, ?_, ?_, ?_, ?_, ?_⟩
  · intro h
    simp [validateSearchInput, h]
  · intro h1 h2
    simp [validateSearchInput, h1, h2]
  · intro h1 h2
    have h3 := jsTrim_ne_empty_of_invalid input h2
    simp [validateSearchInput, h3, h1]
  · intro h1 h2
    have h3 := jsTrim_ne_empty_of_invalid input h2
    simp [validateSearchInput, h3, h2, Nat.not_lt.mpr h1]
  · intro h1 h2 h3 h4
    simp [validateSearchInput, h4, h2, h3, Nat.not_lt.mpr h1]
  · intro h1 h2 h3 h4
    simp [validateSearchInput, h1, h3, h4, Nat.not_lt.mpr h2]
  · intro herr
    have hval : (validateSearchInput input).1 = "" ∧ input ≠ "" := by
      unfold validateSearchInput at herr ⊢
      split_ifs at herr ⊢ with ht hl hc hw
      · exact absurd rfl herr
      · refine ⟨rfl, ?_⟩
        intro he
        rw [he] at ht
        exact ht (by decide)
      · refine ⟨rfl, ?_⟩
        intro he
        rw [he] at ht
        exact ht (by decide)
      · refine ⟨rfl, ?_⟩
        intro he
        rw [he] at ht
        exact ht (by decide)
      · exact absurd rfl herr
    have hcond : ¬ ((validateSearchInput input).1 ≠ "" ∨ input = "") := by
      simp [hval.1, hval.2]
    simp only [handleFilterChange]
    rw [if_neg hcond]

/-- Witness for C6: the 52-character input of 51 letters and a `<` is
rejected with the length message, exercising the length-over-invalid
precedence. -/
theorem C6_validate_precedence_witness :
    validateSearchInput longBadInput = ("", "Search term too long (max 50 characters)") :=
  (C6_validate_precedence longBadInput initState).2.2.1 (by decide) (by decide)

/-- Counterexample to C7: with the stored filter at abc, the whitespace
input " " is accepted without error but the stored filter is not
normalized to empty — the handleFilterChange guard skips the update. -/
theorem C7_whitespace_counterexample :
    ¬ ((handleFilterChange " " rootWithFilter).searchError = "" ∧
       (handleFilterChange " " rootWithFilter).filename = "") := by
  decide

/-- C7 amended: a non-empty whitespace-only input is valid (it clears the
search error) but leaves the stored filter unchanged; only the literal
empty input resets the stored filter to the empty string. -/
theorem C7_whitespace_amended (input : String) (s : NavState)
    (h1 : input ≠ "") (h2 : ∀ c ∈ input.data, jsIsSpace c = true) :
    (handleFilterChange input s).searchError = "" ∧
    (handleFilterChange input s).filename = s.filename ∧
    (handleFilterChange "" s).filename = "" := by
  have ht : jsTrim input = "" := (jsTrim_eq_empty_iff input).mpr h2
  have hv : validateSearchInput input = ("", "") := by
    simp [validateSearchInput, ht]
  have hcond : ¬ ((validateSearchInput input).1 ≠ "" ∨ input = "") := by
    simp [hv, h1]
  refine ⟨?_, ?_, ?_⟩
  · simp only [handleFilterChange]
    rw [if_neg hcond]
    simp [hv]
  · simp only [handleFilterChange]
    rw [if_neg hcond]
  · rfl

/-- Witness for the amended C7 at the single-space input over the state
carrying the filter abc. -/
theorem C7_whitespace_amended_witness :
    (handleFilterChange " " rootWithFilter).searchError = "" ∧
    (handleFilterChange " " rootWithFilter).filename = rootWithFilter.filename ∧
    (handleFilterChange "" rootWithFilter).filename = "" :=
  C7_whitespace_amended " " rootWithFilter (by decide) (by decide)

/-- C8: when the name has no match in the displayed view, or its first
match is a file, navigateToFolder is a silent no-op: the state comes back
exactly unchanged and the loading flag of the pair is false, so no field
changes, isLoading is never set and no error is surfaced. -/
theorem C8_navigateToFolder_noop (docs : List DocumentItem) (nm : String) (s : NavState) :
    ((currentDocuments docs s).find? (fun it => it.name == nm) = none →
      navigateToFolder docs nm s = (s, false)) ∧
    (∀ target, (currentDocuments docs s).find? (fun it => it.name == nm) = some target →
      isFolderItem target = false → navigateToFolder docs nm s = (s, false)) := by
  constructor
  · intro h
    unfold navigateToFolder
    rw [h]
  · intro target h hf
    unfold navigateToFolder
    rw [h]
    simp [hf]

/-- Witness for C8: looking up a name absent from the view is a no-op. -/
theorem C8_navigateToFolder_noop_witness :
    navigateToFolder demoDocs "nope" initState = (initState, false) :=
  (C8_navigateToFolder_noop demoDocs "nope" initState).1 (by rfl)

/-- C9: when the name resolves to a folder of the displayed view,
navigateInto followed immediately by navigateBack restores the path to
its prior value, and both calls reset the stored filter and the search
error to empty. -/
theorem C9_navigate_roundtrip (docs : List DocumentItem) (nm : String) (s : NavState)
    (target : DocumentItem)
    (hfind : (currentDocuments docs s).find? (fun it => it.name == nm) = some target)
    (hfold : isFolderItem target = true) :
    (navigateBack (navigateToFolder docs nm s).1).1.path = s.path ∧
    (navigateToFolder docs nm s).1.filename = "" ∧
    (navigateToFolder docs nm s).1.searchError = "" ∧
    (navigateBack (navigateToFolder docs nm s).1).1.filename = "" ∧
    (navigateBack (navigateToFolder docs nm s).1).1.searchError = "" := by
  have hnav : (navigateToFolder docs nm s).1 =
      { s with path := s.path ++ [nm], filename := "", searchError := "",
               isLoading := false } := by
    unfold navigateToFolder
    rw [hfind]
    simp [hfold]
  rw [hnav]
  refine ⟨?_, rfl, rfl, rfl, rfl⟩
  show (s.path ++ [nm]).dropLast = s.path
  exact List.dropLast_concat

/-- Witness for C9: entering the folder Docs from the initial state and
coming back restores the empty root path. -/
theorem C9_navigate_roundtrip_witness :
    (navigateBack (navigateToFolder demoDocs "Docs" initState).1).1.path = initState.path ∧
    (navigateToFolder demoDocs "Docs" initState).1.filename = "" ∧
    (navigateToFolder demoDocs "Docs" initState).1.searchError = "" ∧
    (navigateBack (navigateToFolder demoDocs "Docs" initState).1).1.filename = "" ∧
    (navigateBack (navigateToFolder demoDocs "Docs" initState).1).1.searchError = "" :=
  C9_navigate_roundtrip demoDocs "Docs" initState (DocumentItem.folder "Docs" [])
    (by rfl) (by rfl)

/-- C10: navigateInto resolves the name by taking the first entry of the
displayed (filtered and sorted) view whose name matches, comparing files
and folders alike: if no entry of the view carries the name the call is a
no-op; if the first matching entry is a file the call is a no-op even
when a same-named folder appears later in display order; and when the
active debounced filter excludes the name the call is a no-op, so the
folder cannot be entered. -/
theorem C10_navigate_first_match (docs : List DocumentItem) (nm : String) (s : NavState) :
    ((∀ it ∈ currentDocuments docs s, it.name ≠ nm) →
      navigateToFolder docs nm s = (s, false)) ∧
    (∀ pre f post, currentDocuments docs s = pre ++ f :: post →
      isFolderItem f = false → f.name = nm → (∀ x ∈ pre, x.name ≠ nm) →
      navigateToFolder docs nm s = (s, false)) ∧
    (s.debouncedFilter ≠ "" →
      strIncludes (jsToLower nm) (jsToLower s.debouncedFilter) = false →
      navigateToFolder docs nm s = (s, false)) := by
  have hnone : (∀ it ∈ currentDocuments docs s, it.name ≠ nm) →
      navigateToFolder docs nm s = (s, false) := by
    intro h
    have hfind : (currentDocuments docs s).find? (fun it => it.name == nm) = none :=
      List.find?_eq_none.mpr (fun x hx => by simp [h x hx])
    unfold navigateToFolder
    rw [hfind]
  refine ⟨hnone, ?_, ?_⟩
  · intro pre f post hview hf hn hpre
    have hfind : (currentDocuments docs s).find? (fun it => it.name == nm) = some f := by
      rw [hview, find?_append_of_none _ pre (f :: post) (fun x hx => by simp [hpre x hx]),
          List.find?_cons_of_pos _ (by simp [hn])]
    unfold navigateToFolder
    rw [hfind]
    simp [hf]
  · intro hdb hexcl
    apply hnone
    intro it hit hname
    have hcd : currentDocuments docs s =
        sortEntries s.sortOption ((resolvePath docs s.path).filter
          (fun x => strIncludes (jsToLower x.name) (jsToLower s.debouncedFilter))) := by
      simp only [currentDocuments]
      rw [if_pos hdb]
    rw [hcd] at hit
    have hmem := (mem_sortByCmp _ _ it).mp hit
    have hpred := List.of_mem_filter hmem
    rw [hname, hexcl] at hpred
    exact Bool.false_ne_true hpred

/-- Witness for C10: in a view where the file Team precedes the folder
Team, navigateInto Team is a no-op. -/
theorem C10_navigate_first_match_witness :
    navigateToFolder shadowDocs "Team" initState = (initState, false) :=
  (C10_navigate_first_match shadowDocs "Team" initState).2.1 []
    (DocumentItem.file .pdf "Team" "2020-01-01T00:00:00Z")
    [DocumentItem.folder "Team" []] (by rfl) (by rfl) (by rfl)
    (fun x hx => absurd hx (List.not_mem_nil x))
